import Mathlib

/-!
Shallow embedding of the `doc_summarizer` pipeline
(`src/utilities/vector_db.py` and the summary-button handler of
`src/main.py`) together with theorems settling the specification claims.

External collaborators (hashlib's SHA-256, the Pinecone client, the PDF
loader, the LLM) are modelled abstractly: the hash is a function
parameter, the vector store is an explicit state record, and the
embedding service is a per-text function applied once per input (the
provider contract: one embedding per input, in order).
-/

namespace DocSummarizer

/-! ### Fingerprinter: `VectorDB.get_hash` (vector_db.py lines 18-27)

`get_hash` reads the uploaded file's bytes, takes their SHA-256 digest,
base64-url-encodes the digest, strips `'='` padding from the right,
replaces `'_'` with `'-'`, and lowercases the result.  Bytes are
modelled as `Nat`s; the digest function is a parameter (hashlib is an
external collaborator). -/

/-- The base64url alphabet used by Python's `base64.urlsafe_b64encode`. -/
def b64Alphabet : List Char :=
  "ABCDEFGHIJKLMNOPQRSTUVWXYZabcdefghijklmnopqrstuvwxyz0123456789-_".toList

/-- Character for a 6-bit group. -/
def b64Char (n : Nat) : Char := b64Alphabet.getD n 'A'

/-- `base64.urlsafe_b64encode`: 3 input bytes become 4 alphabet
characters; a trailing group of 1 or 2 bytes is padded with `'='`. -/
def urlsafe_b64encode : List Nat → List Char
  | [] => []
  | [b0] => [b64Char (b0 / 4 % 64), b64Char (b0 % 4 * 16), '=', '=']
  | [b0, b1] =>
      [b64Char (b0 / 4 % 64), b64Char (b0 % 4 * 16 + b1 / 16),
       b64Char (b1 % 16 * 4), '=']
  | b0 :: b1 :: b2 :: rest =>
      b64Char (b0 / 4 % 64) :: b64Char (b0 % 4 * 16 + b1 / 16) ::
      b64Char (b1 % 16 * 4 + b2 / 64) :: b64Char (b2 % 64) ::
      urlsafe_b64encode rest

/-- Python's `str.rstrip('=')`: drop `'='` characters from the right. -/
def pyRstripEq (s : List Char) : List Char :=
  (s.reverse.dropWhile (fun c => c == '=')).reverse

/-- Python's `str.replace('_', '-')`. -/
def pyReplaceUnderscore (s : List Char) : List Char :=
  s.map (fun c => if c == '_' then '-' else c)

/-- `VectorDB.get_hash`: SHA-256 of the file content, base64-url
encoded, `'='`-stripped, `'_'`→`'-'`, lowercased.  `sha256` stands for
`hashlib.sha256(...).digest()` (an external collaborator). -/
def get_hash (sha256 : List Nat → List Nat) (file_content : List Nat) : String :=
  let base64_hash := pyReplaceUnderscore (pyRstripEq (urlsafe_b64encode (sha256 file_content)))
  String.mk (base64_hash.map Char.toLower)

lemma b64Char_mem (n : Nat) : b64Char n ∈ b64Alphabet := by
  by_cases h : n < b64Alphabet.length
  · simp [b64Char, List.getD, List.getElem?_eq_getElem h, List.getElem_mem h]
  · have h0 : b64Alphabet[n]? = none := List.getElem?_eq_none (le_of_not_lt h)
    simp [b64Char, List.getD, h0]
    decide

/-- The encoder's output is an alphabet-only body followed by `'='`
padding. -/
lemma urlsafe_b64encode_split :
    ∀ bs : List Nat, ∃ body k, urlsafe_b64encode bs = body ++ List.replicate k '=' ∧
      ∀ c ∈ body, c ∈ b64Alphabet
  | [] => ⟨[], 0, rfl, by simp⟩
  | [b0] => by
      refine ⟨[b64Char (b0 / 4 % 64), b64Char (b0 % 4 * 16)], 2, rfl, ?_⟩
      intro c hc
      simp only [List.mem_cons, List.not_mem_nil, or_false] at hc
      rcases hc with rfl | rfl <;> exact b64Char_mem _
  | [b0, b1] => by
      refine ⟨[b64Char (b0 / 4 % 64), b64Char (b0 % 4 * 16 + b1 / 16),
               b64Char (b1 % 16 * 4)], 1, rfl, ?_⟩
      intro c hc
      simp only [List.mem_cons, List.not_mem_nil, or_false] at hc
      rcases hc with rfl | rfl | rfl <;> exact b64Char_mem _
  | b0 :: b1 :: b2 :: rest => by
      obtain ⟨body, k, heq, hmem⟩ := urlsafe_b64encode_split rest
      refine ⟨b64Char (b0 / 4 % 64) :: b64Char (b0 % 4 * 16 + b1 / 16) ::
              b64Char (b1 % 16 * 4 + b2 / 64) :: b64Char (b2 % 64) :: body, k, ?_, ?_⟩
      · simp [urlsafe_b64encode, heq]
      · intro c hc
        simp only [List.mem_cons] at hc
        rcases hc with rfl | rfl | rfl | rfl | h
        · exact b64Char_mem _
        · exact b64Char_mem _
        · exact b64Char_mem _
        · exact b64Char_mem _
        · exact hmem c h

lemma mem_of_mem_dropWhile {p : Char → Bool} :
    ∀ {l : List Char} {c : Char}, c ∈ l.dropWhile p → c ∈ l := by
  intro l
  induction l with
  | nil => intro c hc; simp at hc
  | cons a l ih =>
      intro c hc
      rw [List.dropWhile_cons] at hc
      by_cases hp : p a
      · simp [hp] at hc
        exact List.mem_cons_of_mem a (ih hc)
      · simpa [hp] using hc

lemma dropWhile_eq_replicate_append (x : List Char) :
    ∀ k, (List.replicate k '=' ++ x).dropWhile (fun c => c == '=') =
      x.dropWhile (fun c => c == '=') := by
  intro k
  induction k with
  | zero => simp
  | succ k ih => simp [List.replicate_succ, List.dropWhile_cons, ih]

/-- Every character surviving `rstrip('=')` comes from the alphabet
body (all `'='`s in the encoder output are trailing). -/
lemma mem_pyRstripEq_encode {bs : List Nat} {c : Char}
    (hc : c ∈ pyRstripEq (urlsafe_b64encode bs)) : c ∈ b64Alphabet := by
  obtain ⟨body, k, heq, hmem⟩ := urlsafe_b64encode_split bs
  unfold pyRstripEq at hc
  rw [heq, List.reverse_append, List.reverse_replicate,
      dropWhile_eq_replicate_append] at hc
  have h0 : c ∈ body.reverse.dropWhile (fun c => c == '=') := List.mem_reverse.mp hc
  have h1 : c ∈ body.reverse := mem_of_mem_dropWhile h0
  exact hmem c (List.mem_reverse.mp h1)

/-! ### Data model: chunks, embeddings, records -/

/-- One entry of `data_list` built in `convert_vectors` (lines 66-74):
`{'id': f"Vec{cnt}", 'text': doc.page_content}`. -/
structure ChunkData where
  id : String
  text : String
  deriving DecidableEq, Repr

/-- One embedding returned by `pc.inference.embed` (only its `.values`
field is consumed by `load_vectors`). -/
structure EmbResult where
  values : List Int
  deriving DecidableEq, Repr

/-- One record stored in a Pinecone index:
`{"id": ..., "values": ..., "metadata": {'text': ...}}`. -/
structure DBRecord where
  id : String
  values : List Int
  text : String
  deriving DecidableEq, Repr

/-- `data_list` built from the chunk texts (lines 66-74): sequential
ids `Vec1`, `Vec2`, ... paired with each chunk's `page_content`. -/
def mk_data_list (docs : List String) : List ChunkData :=
  docs.enum.map (fun p => ⟨"Vec" ++ toString (p.1 + 1), p.2⟩)

/-! ### Pinecone store state

The Pinecone service is modelled as the list of its indexes (name and
records) plus counters of creation/deletion API calls, so that
"issues no call" is expressible. -/

structure PineconeState where
  indexes : List (String × List DBRecord)
  createCalls : Nat
  deleteCalls : Nat
  deriving DecidableEq, Repr

/-- `pc.has_index(name)`. -/
def hasIndex (name : String) (s : PineconeState) : Bool :=
  (s.indexes.map Prod.fst).contains name

/-- The raw provider call `pc.create_index(name, dimension=1024,
metric="cosine", spec=ServerlessSpec(...))`: registers an empty index. -/
def pc_create_index (name : String) (s : PineconeState) : PineconeState :=
  { s with indexes := s.indexes ++ [(name, [])], createCalls := s.createCalls + 1 }

/-- `VectorDB.create_index` (lines 106-126): create only when
`pc.has_index` is false; the readiness poll (`describe_index` /
`time.sleep(5)`) changes no store state and is elided. -/
def create_index (name : String) (s : PineconeState) : PineconeState :=
  if hasIndex name s then s else pc_create_index name s

/-- The raw provider call `pc.delete_index(name)`: removes the index
and its records; the Pinecone client raises `NotFoundException`
(HTTP 404) when no index of that name exists, modelled as an error
result.  The call is counted either way. -/
def pc_delete_index (name : String) (s : PineconeState) : Except String PineconeState :=
  if hasIndex name s then
    .ok { s with indexes := s.indexes.filter (fun p => p.1 != name),
                 deleteCalls := s.deleteCalls + 1 }
  else .error "NotFoundException"

/-- `VectorDB.delete_index` (lines 186-195): `if index:` guards only
Python falsiness (the empty string); any non-empty name is passed to
the provider unconditionally. -/
def delete_index (index : String) (s : PineconeState) : Except String PineconeState :=
  if index ≠ "" then pc_delete_index index s else .ok s

/-- `VectorDB.validate_index` (lines 197-208): `if has_index: return
True` with no `else`, so Python falls through and returns `None`;
modelled as `Option Bool` with `none` for the implicit `None`. -/
def validate_index (hash_key : String) (s : PineconeState) : Option Bool :=
  if hasIndex hash_key s then some true else none

/-! ### `load_vectors` (lines 128-156)

Builds records by `zip`-ping `data_list` with `embeddings` and upserts
them; the records produced (and upserted) are returned.  The
`time.sleep(20)` consistency wait changes no data. -/

def load_vectors (data_list : List ChunkData) (embeddings : List EmbResult) : List DBRecord :=
  (data_list.zip embeddings).map (fun de => ⟨de.1.id, de.2.values, de.1.text⟩)

/-! ### Embedder batching in `convert_vectors` (lines 75-101)

The provider contract is one embedding per input text, in order;
`embedOne` models `pc.inference.embed` applied to a single text.
`pyRange`/`pySlice` model Python's `range(start, stop, step)` (with a
positive step) and `list[a:b]` slicing. -/

def pyRange (start stop step : Nat) : List Nat :=
  (List.range ((stop - start + (step - 1)) / step)).map (fun i => start + step * i)

def pySlice (l : List α) (a b : Nat) : List α := (l.drop a).take (b - a)

/-- The batching loop of `convert_vectors` (lines 75-101), returning
`embeddings_list`.  Under 96 items: a single call on the whole list.
Otherwise: one call per `data in range(96, len(data_list), 96)` on
`data_list[prev_index:data]`, and a final-tail call on
`data_list[prev_index:len(data_list)]` only when
`prev_index + 96 > len(data_list)`. -/
def convert_vectors_embed (embedOne : String → EmbResult)
    (data_list : List ChunkData) : List EmbResult :=
  let n := data_list.length
  if n < 96 then
    data_list.map (fun d => embedOne d.text)
  else
    let step := fun (acc : List EmbResult × Nat) (data : Nat) =>
      let acc1 := acc.1 ++ (pySlice data_list acc.2 data).map (fun d => embedOne d.text)
      let prev := data
      if prev + 96 > n then
        (acc1 ++ (pySlice data_list prev n).map (fun d => embedOne d.text), prev)
      else
        (acc1, prev)
    ((pyRange 96 n 96).foldl step ([], 0)).1

/-! ### Retriever: `get_results` (lines 158-184)

Embeds the query (`input_type: query`, a single input), issues
`index.query(namespace=..., vector=..., top_k=10, include_metadata=True)`
and extracts `result['metadata']['text']` from each match in the
store's order.  The store's nearest-neighbour search is modelled as
sorting the namespace's records by similarity to the query vector
(descending) and taking the first `top_k`; `sim` models cosine
similarity, an external computation. -/

def index_query (sim : List Int → List Int → Int) (records : List DBRecord)
    (vector : List Int) (top_k : Nat) : List DBRecord :=
  (records.mergeSort (fun a b => decide (sim vector b.values ≤ sim vector a.values))).take top_k

def get_results (embedQ : String → List Int) (sim : List Int → List Int → Int)
    (records : List DBRecord) (query : String) : List String :=
  let query_embedding := embedQ query
  let results := index_query sim records query_embedding 10
  results.map (fun r => r.text)

/-! ### The summary-button handler (`src/main.py` lines 28-44)

State visible to the caching logic: the store's index names, the
`const.json` cache-pointer file, and how many chunking / passage-
embedding passes have run.  The cache file is either missing
(`FileNotFoundError` on open), malformed (unparseable JSON:
`json.load` raises `JSONDecodeError`), or valid JSON whose `name` key
may be absent (`data.get('name')` then yields `None`). -/

inductive CacheFile where
  | missing
  | malformed
  | valid (name : Option String)
  deriving DecidableEq, Repr

structure AppState where
  indexNames : List String
  cacheFile : CacheFile
  chunkCalls : Nat
  embedCalls : Nat
  deriving DecidableEq, Repr

def initialAppState : AppState := ⟨[], .missing, 0, 0⟩

/-- One press of the "Give Summary" button for a document whose
fingerprint (`get_hash` result) is `fp`, restricted to the
index/cache logic of lines 28-44:

* `hash_value = vectordb.get_hash(uploaded_file)`;
* `is_index_exist = vectordb.validate_index(hash_value)` — truthy
  exactly when the index exists (`validate_index` returns `True` or
  `None`);
* if it does not exist: `vectordb.convert_vectors()` chunks, embeds
  and creates the index, then `const.json` is read inside
  `try/except FileNotFoundError` and `delete_index(data.get('name'))`
  evicts the previously cached index;
* either way `const.json` is rewritten to `{"name": hash_value}`. -/
def process_document (fp : String) (s : AppState) : Except String AppState :=
  if s.indexNames.contains fp then
    .ok { s with cacheFile := .valid (some fp) }
  else
    let s1 : AppState :=
      { s with indexNames := fp :: s.indexNames,
               chunkCalls := s.chunkCalls + 1,
               embedCalls := s.embedCalls + 1 }
    match s1.cacheFile with
    | .missing => .ok { s1 with cacheFile := .valid (some fp) }
    | .malformed => .error "JSONDecodeError"
    | .valid none => .ok { s1 with cacheFile := .valid (some fp) }
    | .valid (some old) =>
        if old ≠ "" then
          if s1.indexNames.contains old then
            .ok { s1 with indexNames := s1.indexNames.erase old,
                          cacheFile := .valid (some fp) }
          else .error "NotFoundException"
        else .ok { s1 with cacheFile := .valid (some fp) }

/-! ## Claim theorems -/

/-- C2: The Fingerprinter (`get_hash`) is deterministic: two
byte-identical inputs produce identical fingerprint strings, for any
(deterministic) digest function standing for SHA-256. -/
theorem get_hash_deterministic (sha256 : List Nat → List Nat)
    (b1 b2 : List Nat) (h : b1 = b2) :
    get_hash sha256 b1 = get_hash sha256 b2 := by
  rw [h]

/-- Witness for C2 at a concrete digest function and concrete bytes. -/
theorem get_hash_deterministic_witness :
    get_hash (fun _ => [0, 1, 2]) [5, 7] = get_hash (fun _ => [0, 1, 2]) [5, 7] :=
  get_hash_deterministic (fun _ => [0, 1, 2]) [5, 7] [5, 7] rfl

lemma alphabet_store_safe :
    ∀ c ∈ b64Alphabet,
      ((Char.toLower (if c == '_' then '-' else c)) != '_') = true ∧
      ((Char.toLower (if c == '_' then '-' else c)) != '=') = true := by
  decide

/-- C3: For every input byte string the fingerprint returned by
`get_hash` contains no underscore and no `'='` padding character. -/
theorem get_hash_store_safe (sha256 : List Nat → List Nat) (file_content : List Nat) :
    ((get_hash sha256 file_content).data.all
      (fun c => (c != '_') && (c != '='))) = true := by
  rw [List.all_eq_true]
  intro c hc
  have hdata : (get_hash sha256 file_content).data =
      (pyReplaceUnderscore
        (pyRstripEq (urlsafe_b64encode (sha256 file_content)))).map Char.toLower := rfl
  rw [hdata] at hc
  unfold pyReplaceUnderscore at hc
  rw [List.map_map] at hc
  obtain ⟨c0, hc0, rfl⟩ := List.mem_map.mp hc
  have halpha := alphabet_store_safe c0 (mem_pyRstripEq_encode hc0)
  simpa [Function.comp] using halpha

/-- C4: `create_index` is idempotent: running it twice with the same
name gives the same store state as once (in particular no duplicate
index and no second provision), and it issues a creation call exactly
when the index is absent — when `has_index` already holds it is a
no-op apart from the readiness poll. -/
theorem create_index_idempotent (name : String) (s : PineconeState) :
    create_index name (create_index name s) = create_index name s ∧
    (create_index name s).createCalls =
      (if hasIndex name s then s.createCalls else s.createCalls + 1) := by
  cases h : hasIndex name s with
  | true => simp [create_index, h]
  | false =>
      have h2 : hasIndex name (pc_create_index name s) = true := by
        simp [hasIndex, pc_create_index]
      constructor
      · simp [create_index, h, h2]
      · simp [create_index, h, pc_create_index]

/-- C5 counterexample: with a non-empty name and an empty store (the
index is absent), `delete_index` is not a safe no-op — the guard
`if index:` only filters the falsy empty string, so the provider call
is still issued and fails with `NotFoundException`. -/
theorem delete_index_absent_error :
    delete_index "x" ⟨[], 0, 0⟩ = .error "NotFoundException" := by
  rfl

/-- C5 amended: `delete_index` is a no-op raising no error when the
name is empty (falsy); when the name is non-empty and the index
exists, it removes the index together with all its records (the whole
entry); when the name is non-empty but absent the store call is still
issued and fails with a not-found error. -/
theorem delete_index_empty_or_present (s : PineconeState) (name : String)
    (hne : name ≠ "") (hex : hasIndex name s = true) :
    delete_index "" s = .ok s ∧
    delete_index name s =
      .ok { s with indexes := s.indexes.filter (fun p => p.1 != name),
                   deleteCalls := s.deleteCalls + 1 } ∧
    hasIndex name { s with indexes := s.indexes.filter (fun p => p.1 != name),
                           deleteCalls := s.deleteCalls + 1 } = false := by
  refine ⟨by simp [delete_index], ?_, ?_⟩
  · simp [delete_index, pc_delete_index, hne, hex]
  · have hnot : ¬ name ∈ (s.indexes.filter (fun p => p.1 != name)).map Prod.fst := by
      intro hmem
      obtain ⟨p, hp, hfst⟩ := List.mem_map.mp hmem
      have h2 := (List.mem_filter.mp hp).2
      rw [hfst] at h2
      simp at h2
    simp [hasIndex, hnot]

/-- Witness for C5 (amended) on a one-index store. -/
theorem delete_index_empty_or_present_witness :
    delete_index "" (⟨[("a", [])], 0, 0⟩ : PineconeState) = .ok ⟨[("a", [])], 0, 0⟩ ∧
    delete_index "a" (⟨[("a", [])], 0, 0⟩ : PineconeState) = .ok ⟨[], 0, 1⟩ ∧
    hasIndex "a" (⟨[], 0, 1⟩ : PineconeState) = false := by
  simpa using delete_index_empty_or_present ⟨[("a", [])], 0, 0⟩ "a" (by decide) (by decide)

/-- C6: `validate_index` has no `else` branch, so for an absent index
Python falls through and returns `None` — not the boolean `False` its
own docstring (and the spec contract `exists(name) -> bool`) promise.
Evaluated at an absent name (result `none`) and a present one
(result `some true`). -/
theorem validate_index_returns_none :
    validate_index "x" ⟨[], 0, 0⟩ = none ∧
    validate_index "a" ⟨[("a", [])], 0, 0⟩ = some true := by
  constructor <;> rfl

/-- C7: `get_results` returns at most 10 snippets, never more than
the index's namespace contains, and its output is exactly the `text`
metadata of the store's matches in the store's relevance order (no
reordering), for any query embedding and similarity function. -/
theorem get_results_top10 (embedQ : String → List Int)
    (sim : List Int → List Int → Int) (records : List DBRecord) (query : String) :
    (get_results embedQ sim records query).length ≤ 10 ∧
    (get_results embedQ sim records query).length ≤ records.length ∧
    get_results embedQ sim records query =
      (index_query sim records (embedQ query) 10).map (fun r => r.text) := by
  refine ⟨?_, ?_, rfl⟩
  · simp [get_results, index_query]
  · have hperm := List.mergeSort_perm records
      (fun a b => decide (sim (embedQ query) b.values ≤ sim (embedQ query) a.values))
    have hlen := hperm.length_eq
    simp only [get_results, index_query, List.length_map, List.length_take]
    omega

/-- C8: The persisted cache pointer holds at most one fingerprint:
(1) every successful run rewrites `const.json` to exactly the
processed document's fingerprint; (2) processing document A (from a
fresh state) and then document B deletes A's index and leaves the
pointer holding exactly B's fingerprint; (3) processing A twice in a
row reuses the existing index and performs no re-chunking or
re-embedding (the chunk/embed counters are unchanged). -/
theorem cache_pointer_single_slot (A B : String) (hAB : A ≠ B) (hA : A ≠ "") :
    (∀ s s' fp, process_document fp s = .ok s' → s'.cacheFile = .valid (some fp)) ∧
    process_document A initialAppState = .ok ⟨[A], .valid (some A), 1, 1⟩ ∧
    process_document B ⟨[A], .valid (some A), 1, 1⟩ = .ok ⟨[B], .valid (some B), 2, 2⟩ ∧
    process_document A ⟨[A], .valid (some A), 1, 1⟩ = .ok ⟨[A], .valid (some A), 1, 1⟩ := by
  refine ⟨?_, ?_, ?_, ?_⟩
  · intro s s' fp h
    obtain ⟨names, cf, ck, ek⟩ := s
    unfold process_document at h
    split at h
    · cases Except.ok.inj h; rfl
    · cases cf with
      | missing => cases Except.ok.inj h; rfl
      | malformed => exact Except.noConfusion h
      | valid nameOpt =>
          cases nameOpt with
          | none => cases Except.ok.inj h; rfl
          | some old =>
              dsimp only at h
              split at h
              · split at h
                · cases Except.ok.inj h; rfl
                · exact Except.noConfusion h
              · cases Except.ok.inj h; rfl
  · rfl
  · have hBA : (([A] : List String).contains B) = false := by
      simp [Ne.symm hAB]
    have hABc : (([B, A] : List String).contains A) = true := by simp
    simp [process_document, hBA, hABc, hA, List.erase_cons, Ne.symm hAB, hAB]
  · have hAA : (([A] : List String).contains A) = true := by simp
    simp [process_document, hAA]

/-- Witness for C8 at concrete fingerprints "a" and "b". -/
theorem cache_pointer_single_slot_witness :
    process_document "b" ⟨["a"], .valid (some "a"), 1, 1⟩ =
      .ok ⟨["b"], .valid (some "b"), 2, 2⟩ ∧
    process_document "a" ⟨["a"], .valid (some "a"), 1, 1⟩ =
      .ok ⟨["a"], .valid (some "a"), 1, 1⟩ :=
  ⟨(cache_pointer_single_slot "a" "b" (by decide) (by decide)).2.2.1,
   (cache_pointer_single_slot "a" "b" (by decide) (by decide)).2.2.2⟩

/-- C9 counterexample: a malformed cache-pointer file is fatal on the
build-new-index path — only `FileNotFoundError` is caught, so the
`JSONDecodeError` raised by `json.load` propagates. -/
theorem cache_malformed_fatal :
    process_document "a" ⟨[], .malformed, 0, 0⟩ = .error "JSONDecodeError" := by
  rfl

/-- C9 amended: a missing cache-pointer file (or one whose JSON lacks
the `name` key) is non-fatal on the build-new-index path: it is
treated as nothing-to-evict, logged, and processing continues to
build and record the new index; a malformed (unparseable) cache file,
by contrast, raises an uncaught JSON decode error. -/
theorem cache_missing_nonfatal (fp : String) (s : AppState)
    (h : s.indexNames.contains fp = false)
    (hm : s.cacheFile = .missing ∨ s.cacheFile = .valid none) :
    process_document fp s =
      .ok ⟨fp :: s.indexNames, .valid (some fp), s.chunkCalls + 1, s.embedCalls + 1⟩ := by
  have h2 : fp ∉ s.indexNames := by simpa using h
  rcases hm with hm | hm <;> simp [process_document, h2, hm]

/-- Witness for C9 (amended) from the initial state. -/
theorem cache_missing_nonfatal_witness :
    process_document "a" initialAppState = .ok ⟨["a"], .valid (some "a"), 1, 1⟩ :=
  cache_missing_nonfatal "a" initialAppState rfl (Or.inl rfl)

/-- C10: `load_vectors` zips `data_list` with `embeddings`, so it
silently upserts exactly `min` of the two lengths many records
(surplus chunks are dropped with no error), and the i-th record pairs
the i-th chunk's id and text with the i-th embedding's values. -/
theorem load_vectors_zip_min (data_list : List ChunkData) (embeddings : List EmbResult) :
    (load_vectors data_list embeddings).length =
      min data_list.length embeddings.length ∧
    ∀ (i : Nat) (d : ChunkData) (e : EmbResult),
      data_list[i]? = some d → embeddings[i]? = some e →
      (load_vectors data_list embeddings)[i]? =
        some (⟨d.id, e.values, d.text⟩ : DBRecord) := by
  constructor
  · simp [load_vectors]
  · intro i d e hd he
    have hz : (data_list.zip embeddings)[i]? = some (d, e) := by
      rw [List.getElem?_zip_eq_some]
      exact ⟨hd, he⟩
    rw [load_vectors, List.getElem?_map, hz]
    rfl

/-- Witness for C10: two chunks, one embedding — one record upserted,
pairing the first chunk with the first embedding. -/
theorem load_vectors_zip_min_witness :
    (load_vectors [⟨"Vec1", "t1"⟩, ⟨"Vec2", "t2"⟩] [⟨[3]⟩]).length = min 2 1 ∧
    (load_vectors [⟨"Vec1", "t1"⟩, ⟨"Vec2", "t2"⟩] [⟨[3]⟩])[0]? =
      some ⟨"Vec1", [3], "t1"⟩ :=
  ⟨(load_vectors_zip_min [⟨"Vec1", "t1"⟩, ⟨"Vec2", "t2"⟩] [⟨[3]⟩]).1,
   (load_vectors_zip_min [⟨"Vec1", "t1"⟩, ⟨"Vec2", "t2"⟩] [⟨[3]⟩]).2
     0 ⟨"Vec1", "t1"⟩ ⟨[3]⟩ rfl rfl⟩

set_option maxRecDepth 20000 in
/-- C1: evaluation of the batching loop at the failing input — 96
chunks, one of the lengths the claim names.  `len(data_list) < 96` is
false and `range(96, 96, 96)` is empty, so the loop body never runs:
the code returns 0 embeddings for 96 inputs instead of one embedding
per input (and likewise drops the final 96-batch at every exact
multiple of 96, e.g. 192 inputs yield 96 embeddings). -/
theorem convert_vectors_drops_final_batch :
    (mk_data_list (List.replicate 96 "chunk")).length = 96 ∧
    (convert_vectors_embed (fun _ => ⟨[1]⟩)
      (mk_data_list (List.replicate 96 "chunk"))).length = 0 ∧
    (convert_vectors_embed (fun _ => ⟨[1]⟩)
      (mk_data_list (List.replicate 192 "chunk"))).length = 96 ∧
    (convert_vectors_embed (fun _ => ⟨[1]⟩)
      (mk_data_list (List.replicate 97 "chunk"))).length = 97 := by
  refine ⟨by rfl, by rfl, by rfl, by rfl⟩

end DocSummarizer
